import Mathlib

/-!
Verification of the SPF evaluation / DNS topology engines of the
better-cloudflare repository (src-tauri/src/spf.rs and
src-tauri/src/commands.rs), as a shallow embedding in Lean 4.

DNS, DoH/HTTP and IP-parsing side effects are modelled by environment
records of outcome functions (`SpfEnv`, `NetEnv`): each field gives the
observable outcome of one kind of external call (a timed-out or failed
lookup is the outcome the code itself collapses it to).  Everything the
Rust code computes from those outcomes is translated directly.

Rust string primitives (`trim`, `to_lowercase`, `split_whitespace`,
`splitn`, `starts_with`, `ends_with`, `trim_end_matches`, `contains`)
are re-implemented below over `List Char` so that all definitions are
executable by kernel reduction.  `to_lowercase` is modelled on the ASCII
subset, which is the case split the code relies on for SPF tags and
hostnames.  Byte indexing (`trimmed[6..]`) coincides with character
indexing on the ASCII prefixes it is applied to.
-/

deriving instance DecidableEq for Except

/-- ASCII lowering of one character (Rust `to_lowercase` on ASCII input). -/
def rsCharLower (c : Char) : Char :=
  if 'A' ≤ c ∧ c ≤ 'Z' then Char.ofNat (c.toNat + 32) else c

/-- Rust `str::to_lowercase` (ASCII fragment). -/
def rsToLower (s : String) : String := ⟨s.data.map rsCharLower⟩

/-- Drop leading whitespace from a character list. -/
def trimLeftList (l : List Char) : List Char := l.dropWhile (fun c => c.isWhitespace)

/-- Rust `str::trim`: drop leading and trailing whitespace. -/
def rsTrim (s : String) : String :=
  ⟨trimLeftList (trimLeftList s.data.reverse).reverse⟩

/-- Auxiliary structural version of prefix testing on character lists. -/
def rsStartsWithList : List Char → List Char → Bool
  | _, [] => true
  | [], _ :: _ => false
  | c :: cs, d :: ds => c = d && rsStartsWithList cs ds

/-- Rust `str::starts_with`. -/
def rsStartsWith (s pat : String) : Bool := rsStartsWithList s.data pat.data

/-- Rust `str::ends_with`. -/
def rsEndsWith (s pat : String) : Bool := rsStartsWithList s.data.reverse pat.data.reverse

/-- Accumulator loop for `split_whitespace`. -/
def splitWsAux : List Char → List Char → List String → List String
  | [], cur, acc => if cur.isEmpty then acc.reverse else acc.reverse ++ [⟨cur.reverse⟩]
  | c :: rest, cur, acc =>
    if c.isWhitespace then
      if cur.isEmpty then splitWsAux rest [] acc
      else splitWsAux rest [] (⟨cur.reverse⟩ :: acc)
    else splitWsAux rest (c :: cur) acc

/-- Rust `str::split_whitespace`: maximal non-whitespace runs, no empties. -/
def rsSplitWhitespace (s : String) : List String := splitWsAux s.data [] []

/-- Accumulator loop for `splitn(2, sep)`. -/
def splitOnceAux (sep : Char) : List Char → List Char → (String × Option String)
  | [], before => (⟨before.reverse⟩, none)
  | c :: rest, before =>
    if c = sep then (⟨before.reverse⟩, some ⟨rest⟩)
    else splitOnceAux sep rest (c :: before)

/-- Rust `str::splitn(2, sep)`: the part before the first `sep` and,
when `sep` occurs, the remainder after it. -/
def rsSplitOnce (s : String) (sep : Char) : String × Option String :=
  splitOnceAux sep s.data []

/-- Rust `str::contains(char)`. -/
def rsContainsChar (s : String) (c : Char) : Bool := s.data.contains c

/-- Character-drop standing in for the byte slice `s[n..]` on ASCII prefixes. -/
def rsDropChars (s : String) (n : Nat) : String := ⟨s.data.drop n⟩

/-- Rust `str::trim_end_matches('.')`: remove every trailing dot. -/
def rsDropTrailingDots (s : String) : String :=
  ⟨(s.data.reverse.dropWhile (fun c => c = '.')).reverse⟩

/-- `normalize_domain` (commands.rs): trim, strip trailing dots, lowercase. -/
def normalizeDomain (input : String) : String :=
  rsToLower (rsDropTrailingDots (rsTrim input))

/-! ## SPF data model (spf.rs) -/

/-- Abstract machine representation of `std::net::IpAddr`; the embedding never
inspects it, all address semantics live in the environment functions. -/
structure IpAddr where
  repr : String
deriving DecidableEq, Repr

structure SPFMechanism where
  qualifier : Option String
  mechanism : String
  value : Option String
deriving DecidableEq, Repr

structure SPFModifier where
  key : String
  value : String
deriving DecidableEq, Repr

structure SPFRecord where
  version : String
  mechanisms : List SPFMechanism
  modifiers : List SPFModifier
deriving DecidableEq, Repr

structure SPFSimulation where
  result : String
  reasons : List String
  lookups : Nat
deriving DecidableEq, Repr

structure SPFGraphNode where
  domain : String
  txt : Option String
deriving DecidableEq, Repr

structure SPFGraphEdge where
  from_ : String
  to_ : String
  edge_type : String
deriving DecidableEq, Repr

structure SPFGraph where
  nodes : List SPFGraphNode
  edges : List SPFGraphEdge
  lookups : Nat
  cyclic : Bool
deriving DecidableEq, Repr

/-- Environment of external outcomes for the SPF engine (spf.rs).
`parseIp` models `IpAddr::from_str` (std), `resolverConf` the construction
of the system resolver, `ipMatchesCidr` the `ip_matches_cidr` helper (whose
body delegates to the external `ipnet`/std parsers), `ipToString` the
`IpAddr::to_string` round-trip used by the `include` arm, and the remaining
fields the outcomes of `resolve_txt`, `resolve_a_aaaa`, `resolve_mx`,
`resolve_ptr` for each queried name. -/
structure SpfEnv where
  parseIp : String → Except String IpAddr
  resolverConf : Except String Unit
  txt : String → Except String (List String)
  aAaaa : String → Except String (List IpAddr)
  mx : String → Except String (List String)
  ptr : IpAddr → Except String (List String)
  ipMatchesCidr : IpAddr → String → Bool
  ipToString : IpAddr → String

/-- One token of an SPF record, as classified by the parser loop body. -/
def parseSpfToken (part : String) (acc : SPFRecord) : SPFRecord :=
  if rsContainsChar part '=' then
    let (key, rest) := rsSplitOnce part '='
    { acc with modifiers := acc.modifiers ++ [⟨rsToLower key, rest.getD ""⟩] }
  else
    let first := part.data.headD '+'
    let qualifier := if rsContainsChar "+-~?" first then some ⟨[first]⟩ else none
    let core := if qualifier.isSome then rsDropChars part 1 else part
    let (name, value) := rsSplitOnce core ':'
    { acc with mechanisms := acc.mechanisms ++ [⟨qualifier, rsToLower name, value⟩] }

/-- `parse_spf` (spf.rs): `None` unless the trimmed text starts with `v=spf1`
case-insensitively; the remainder splits on whitespace into mechanisms and
`key=value` modifiers, preserving token order. -/
def parseSpf (content : String) : Option SPFRecord :=
  let trimmed := rsTrim content
  if rsStartsWith (rsToLower trimmed) "v=spf1" then
    let rest := rsTrim (rsDropChars trimmed 6)
    some ((rsSplitWhitespace rest).foldl (fun acc part => parseSpfToken part acc)
      ⟨"v=spf1", [], []⟩)
  else
    none

/-- `get_spf_record` (spf.rs) minus the `lookups` increment, which every call
site performs explicitly here: fetch TXT and pick the first value starting
with `v=spf1` case-insensitively.  A TXT failure propagates. -/
def getSpfRecord (env : SpfEnv) (domain : String) : Except String (Option String) :=
  match env.txt domain with
  | .error e => .error e
  | .ok records => .ok (records.find? (fun t => rsStartsWith (rsToLower t) "v=spf1"))

/-! ## SPF evaluator — `simulate_spf` (spf.rs) -/

/-- Lookup budget: local `max_lookups` of one `simulate_spf` call (never mutated). -/
def MAX_LOOKUPS : Nat := 10

/-- Inner loop of the `mx` arm: resolve A/AAAA of each exchange, matching on
membership; any resolution failure propagates. -/
def mxScan (env : SpfEnv) (ipAddr : IpAddr) : List String → Except String Bool
  | [] => .ok false
  | host :: rest =>
    match env.aAaaa host with
    | .error e => .error e
    | .ok addrs => if addrs.contains ipAddr then .ok true else mxScan env ipAddr rest

/-- Inner loop of the `ptr` arm: for each reverse name whose lowercase form
ends with the suffix, forward-resolve and match on membership. -/
def ptrScan (env : SpfEnv) (ipAddr : IpAddr) (suffix : String) :
    List String → Except String Bool
  | [] => .ok false
  | p :: rest =>
    if rsEndsWith (rsToLower p) suffix then
      match env.aAaaa p with
      | .error e => .error e
      | .ok addrs => if addrs.contains ipAddr then .ok true else ptrScan env ipAddr suffix rest
    else ptrScan env ipAddr suffix rest

/-- `eval_mechanism` (spf.rs).  The `&mut u32` lookup counter becomes explicit
state: the returned `Nat` is the counter value after the call, including on
the error path (matching the mutation already performed before `Err`).
`simRec` is the recursive `simulate_spf` entry used by the `include` arm. -/
def evalMechanism (env : SpfEnv) (simRec : String → String → Except String SPFSimulation)
    (domain : String) (ipAddr : IpAddr) (m : SPFMechanism) (lookups : Nat) :
    Except String (Option Bool) × Nat :=
  if m.mechanism = "ip4" ∨ m.mechanism = "ip6" then
    match m.value with
    | some val => (.ok (some (env.ipMatchesCidr ipAddr val)), lookups)
    | none => (.ok (some false), lookups)
  else if m.mechanism = "a" then
    let l := lookups + 1
    if l > MAX_LOOKUPS then (.error "lookup limit", l)
    else
      match env.aAaaa (m.value.getD domain) with
      | .error e => (.error e, l)
      | .ok addrs => (.ok (some (addrs.contains ipAddr)), l)
  else if m.mechanism = "mx" then
    let l := lookups + 1
    if l > MAX_LOOKUPS then (.error "lookup limit", l)
    else
      match env.mx (m.value.getD domain) with
      | .error e => (.error e, l)
      | .ok hosts =>
        match mxScan env ipAddr hosts with
        | .error e => (.error e, l)
        | .ok b => (.ok (some b), l)
  else if m.mechanism = "ptr" then
    let l := lookups + 1
    if l > MAX_LOOKUPS then (.error "lookup limit", l)
    else
      match env.ptr ipAddr with
      | .error e => (.error e, l)
      | .ok ptrs =>
        match ptrScan env ipAddr (rsToLower (m.value.getD domain)) ptrs with
        | .error e => (.error e, l)
        | .ok b => (.ok (some b), l)
  else if m.mechanism = "include" then
    let l := lookups + 1
    if l > MAX_LOOKUPS then (.error "lookup limit", l)
    else
      match simRec (m.value.getD "") (env.ipToString ipAddr) with
      | .error e => (.error e, l)
      | .ok res => (.ok (some (res.result = "pass")), l + res.lookups)
  else if m.mechanism = "exists" then
    let l := lookups + 1
    if l > MAX_LOOKUPS then (.error "lookup limit", l)
    else
      match env.aAaaa (m.value.getD "") with
      | .error e => (.error e, l)
      | .ok addrs => (.ok (some (!addrs.isEmpty)), l)
  else if m.mechanism = "all" then (.ok (some true), lookups)
  else (.ok none, lookups)

/-- The mechanism loop of `simulate_spf`: first `Ok(Some(true))` produces the
qualifier verdict, `Ok(Some(false))`/`Ok(None)` continue, and any `Err` is
absorbed into an `Ok` simulation with verdict `permerror` and reason
"lookup limit reached".  Returns the early simulation (if any) together with
the final counter. -/
def runMechanisms (env : SpfEnv) (simRec : String → String → Except String SPFSimulation)
    (domain : String) (ipAddr : IpAddr) :
    List SPFMechanism → Nat → Option SPFSimulation × Nat
  | [], lookups => (none, lookups)
  | m :: rest, lookups =>
    match evalMechanism env simRec domain ipAddr m lookups with
    | (.ok (some true), l) =>
      let q := m.qualifier.getD "+"
      let verdict :=
        if q = "-" then "fail" else if q = "~" then "softfail"
        else if q = "?" then "neutral" else "pass"
      (some ⟨verdict, ["matched mechanism " ++ m.mechanism], l⟩, l)
    | (.ok (some false), l) => runMechanisms env simRec domain ipAddr rest l
    | (.ok none, l) => runMechanisms env simRec domain ipAddr rest l
    | (.error _, l) => (some ⟨"permerror", ["lookup limit reached"], l⟩, l)

/-- Body of `simulate_spf` given the recursive entry for nested evaluations
(`include` re-enters with the printed IP, `redirect` with the original
argument).  The TXT fetch counts as the first lookup. -/
def simulateSpfBody (env : SpfEnv) (simRec : String → String → Except String SPFSimulation)
    (domain ip : String) : Except String SPFSimulation :=
  match env.parseIp ip with
  | .error e => .error e
  | .ok ipAddr =>
    match env.resolverConf with
    | .error e => .error e
    | .ok _ =>
      match getSpfRecord env domain with
      | .error e => .error e
      | .ok txt =>
        let lookups := 1
        match txt.bind parseSpf with
        | none => .ok ⟨"neutral", ["no spf record"], lookups⟩
        | some parsed =>
          match runMechanisms env simRec domain ipAddr parsed.mechanisms lookups with
          | (some sim, _) => .ok sim
          | (none, lookups2) =>
            match parsed.modifiers.find? (fun md => md.key = "redirect") with
            | some md =>
              match simRec md.value ip with
              | .error e => .error e
              | .ok res => .ok ⟨res.result, res.reasons, lookups2 + res.lookups⟩
            | none => .ok ⟨"neutral", ["no matching mechanism"], lookups2⟩

/-- `simulate_spf` (spf.rs).  The Rust recursion carries no depth bound, so
the embedding threads explicit fuel; every claim quantifies over, or fixes,
sufficient fuel.  Each nested evaluation starts a fresh counter whose final
total the `include` arm folds back into its caller. -/
def simulateSpf (env : SpfEnv) : Nat → String → String → Except String SPFSimulation
  | 0, _, _ => .error "recursion limit"
  | fuel+1, domain, ip => simulateSpfBody env (simulateSpf env fuel) domain ip

/-! ## SPF graph builder — `build_spf_graph` (spf.rs) -/

/-- Mutable state of `build_spf_graph::walk`: accumulated nodes, edges,
lookup counter, visited set (as a list of names) and the cyclic flag. -/
structure WalkSt where
  nodes : List SPFGraphNode
  edges : List SPFGraphEdge
  lookups : Nat
  visited : List String
  cyclic : Bool
deriving DecidableEq, Repr

/-- The include loop of `walk`: for each `include` mechanism with a value,
push an edge and recurse via `walkRec`. -/
def walkMechs (walkRec : String → WalkSt → Except String WalkSt) (domain : String) :
    List SPFMechanism → WalkSt → Except String WalkSt
  | [], st => .ok st
  | m :: rest, st =>
    if m.mechanism = "include" then
      match m.value with
      | some target =>
        match walkRec target { st with edges := st.edges ++ [⟨domain, target, "include"⟩] } with
        | .error e => .error e
        | .ok st2 => walkMechs walkRec domain rest st2
      | none => walkMechs walkRec domain rest st
    else walkMechs walkRec domain rest st

/-- The redirect loop of `walk`: for each `redirect` modifier with a non-empty
value, push an edge and recurse via `walkRec`. -/
def walkMods (walkRec : String → WalkSt → Except String WalkSt) (domain : String) :
    List SPFModifier → WalkSt → Except String WalkSt
  | [], st => .ok st
  | md :: rest, st =>
    if md.key = "redirect" ∧ md.value ≠ "" then
      match walkRec md.value { st with edges := st.edges ++ [⟨domain, md.value, "redirect"⟩] } with
      | .error e => .error e
      | .ok st2 => walkMods walkRec domain rest st2
    else walkMods walkRec domain rest st

/-- `build_spf_graph::walk`.  The Rust guard `depth > max_depth` becomes
fuel `0` (fuel = `max_depth + 1 - depth`); a revisited domain sets the
cyclic flag and stops; otherwise the domain is marked visited, its TXT is
fetched (one lookup; failure aborts the whole walk), a node is pushed, and
the include and redirect edges are walked in record order. -/
def walk (env : SpfEnv) : Nat → String → WalkSt → Except String WalkSt
  | 0, _, st => .ok st
  | fuel+1, domain, st =>
    if st.visited.contains domain then .ok { st with cyclic := true }
    else
      let st := { st with visited := st.visited ++ [domain] }
      match getSpfRecord env domain with
      | .error e => .error e
      | .ok txt =>
        let st := { st with lookups := st.lookups + 1,
                            nodes := st.nodes ++ [⟨domain, txt⟩] }
        match txt.bind parseSpf with
        | none => .ok st
        | some record =>
          match walkMechs (walk env fuel) domain record.mechanisms st with
          | .error e => .error e
          | .ok st2 => walkMods (walk env fuel) domain record.modifiers st2

/-- `build_spf_graph` (spf.rs): depth-first walk from the root with
`depth = 0`, `max_depth = 10` (hence fuel 11). -/
def buildSpfGraph (env : SpfEnv) (domain : String) : Except String SPFGraph :=
  match env.resolverConf with
  | .error e => .error e
  | .ok _ =>
    match walk env 11 domain ⟨[], [], 0, [], false⟩ with
    | .error e => .error e
    | .ok st => .ok ⟨st.nodes, st.edges, st.lookups, st.cyclic⟩

/-! ## Topology data model (commands.rs) -/

structure ReverseHostnameResult where
  ip : String
  hostnames : List String
deriving DecidableEq, Repr

structure HostnameChainResult where
  name : String
  chain : List String
  terminal : String
  ipv4 : List String
  ipv6 : List String
  reverse_hostnames : List ReverseHostnameResult
  error : Option String
deriving DecidableEq, Repr

structure ServiceProbeResult where
  host : String
  https_up : Bool
  http_up : Bool
deriving DecidableEq, Repr

structure TopologyBatchResult where
  resolutions : List HostnameChainResult
  probes : List ServiceProbeResult
deriving DecidableEq, Repr

/-- Environment of external outcomes for the topology engine (commands.rs).
Each lookup field yields `none` when the timed call failed, timed out, or the
HTTP client could not be built into an answer, and `some records` (already
rendered to strings, as the code does) on success; per-call timeouts are part
of the outcome.  `dohRace` is the outcome of racing the (at most 3 spawned)
DoH endpoint tasks in `query_doh_records` — the deduplicated, non-empty
answer list of the first winner, or `[]` when every branch fails.
`ipParses` models `str::parse::<IpAddr>()` succeeding, `clientBuild` the
construction of the reqwest client, and `probe` the outcome of `probe_url`
(request completed without transport/timeout error). -/
structure NetEnv where
  clientBuild : Except String Unit
  cnameLookup : String → Option (List String)
  v4Lookup : String → Option (List String)
  v6Lookup : String → Option (List String)
  ipParses : String → Bool
  revLookup : String → Option (List String)
  dohRace : List String → String → String → List String
  probe : String → Bool

/-- First-seen-order deduplication via a seen-set, as the
`seen.insert(value.clone())`-style retain/push loops do. -/
def dedupKeepFirst (l : List String) : List String :=
  l.foldl (fun acc v => if acc.contains v then acc else acc ++ [v]) []

/-- `query_doh_records` (commands.rs): an empty endpoint list returns no
answers before any HTTP work; otherwise up to 3 endpoints are spawned and
raced, the first non-empty per-endpoint answer winning. -/
def queryDohRecords (env : NetEnv) (doh_endpoints : List String)
    (name record_type : String) : List String :=
  if doh_endpoints.isEmpty then []
  else env.dohRace (doh_endpoints.take 3) name record_type

/-- One iteration of the CNAME-follow loop: the primary resolver's first
CNAME answer (normalized, dropped if empty), else the first DoH fallback
answer. -/
def cnameStep (env : NetEnv) (doh_endpoints : List String) (cur : String) : Option String :=
  let direct :=
    match env.cnameLookup cur with
    | some recs =>
      match recs.head? with
      | some r => let n := normalizeDomain r; if n = "" then none else some n
      | none => none
    | none => none
  match direct with
  | some n => some n
  | none => (queryDohRecords env doh_endpoints cur "CNAME").head?

/-- The `for _ in 0..max_hops` CNAME loop of `resolve_chain_for_host`:
stops on no further CNAME or on an already-seen candidate (cycle guard),
appending each new name to the chain. -/
def cnameLoop (env : NetEnv) (doh_endpoints : List String) :
    Nat → String → List String → List String → List String × String
  | 0, cur, chain, _ => (chain, cur)
  | hops+1, cur, chain, seen =>
    match cnameStep env doh_endpoints cur with
    | none => (chain, cur)
    | some nextName =>
      if seen.contains nextName then (chain, cur)
      else cnameLoop env doh_endpoints hops nextName (chain ++ [nextName]) (seen ++ [nextName])

/-- The PTR phase of `resolve_chain_for_host`: for each ip string that
parses, reverse-resolve, normalize and deduplicate the names, and keep the
entry only when non-empty. -/
def revPhase (env : NetEnv) : List String → List ReverseHostnameResult
  | [] => []
  | ip :: rest =>
    if env.ipParses ip then
      let names :=
        match env.revLookup ip with
        | some l => dedupKeepFirst ((l.map normalizeDomain).filter (fun s => s ≠ ""))
        | none => []
      if names.isEmpty then revPhase env rest
      else ⟨ip, names⟩ :: revPhase env rest
    else revPhase env rest

/-- The message `resolve_chain_for_host` sets when nothing resolved. -/
def NO_RECORDS_MSG : String := "no CNAME/A/AAAA records found"

/-- The straight-line tail of `resolve_chain_for_host` after the CNAME loop:
A/AAAA via the primary resolver (deduplicated), DoH fallback for each family
still empty, PTR collection unless disabled, and result assembly with the
unresolved error set iff the chain is a single name and both address
families are empty. -/
def chainFinish (env : NetEnv) (doh_endpoints : List String) (name : String)
    (chain : List String) (cur : String) (disable_ptr_lookups : Bool) :
    HostnameChainResult :=
  let ipv4_direct := match env.v4Lookup cur with
    | some l => dedupKeepFirst l
    | none => []
  let ipv6_direct := match env.v6Lookup cur with
    | some l => dedupKeepFirst l
    | none => []
  let ipv4 := if ipv4_direct.isEmpty then queryDohRecords env doh_endpoints cur "A"
    else ipv4_direct
  let ipv6 := if ipv6_direct.isEmpty then queryDohRecords env doh_endpoints cur "AAAA"
    else ipv6_direct
  let reverse_hostnames := if disable_ptr_lookups then [] else revPhase env (ipv4 ++ ipv6)
  let unresolved := chain.length ≤ 1 ∧ ipv4.isEmpty ∧ ipv6.isEmpty
  ⟨name, chain, cur, ipv4, ipv6, reverse_hostnames,
    if unresolved then some NO_RECORDS_MSG else none⟩

/-- `resolve_chain_for_host` (commands.rs).  The `lookup_timeout_ms`
argument is carried for signature fidelity; each timed outcome is part of
the environment.  An empty normalized name short-circuits; otherwise the
CNAME loop runs and `chainFinish` resolves addresses and assembles the
result. -/
def resolveChainForHost (env : NetEnv) (doh_endpoints : List String) (host : String)
    (max_hops : Nat) (_lookup_timeout_ms : Nat) (disable_ptr_lookups : Bool) :
    HostnameChainResult :=
  let name := normalizeDomain host
  if name = "" then ⟨name, [], "", [], [], [], some "empty hostname"⟩
  else
    let (chain, cur) := cnameLoop env doh_endpoints max_hops name [name] [name]
    chainFinish env doh_endpoints name chain cur disable_ptr_lookups

/-! ## Resolver / DoH endpoint selection (commands.rs) -/

/-- `resolve_dns_server`: explicit custom server, else the non-legacy
selected server, else the legacy provider mapping. -/
def resolveDnsServer (dns_server custom_dns_server legacy_provider : Option String) : String :=
  let selected := rsTrim (dns_server.getD "1.1.1.1")
  let custom := rsTrim (custom_dns_server.getD "")
  if rsToLower selected = "custom" ∧ custom ≠ "" then custom
  else if selected ≠ "" ∧ selected ≠ "__legacy__" then selected
  else
    let legacy := rsToLower (rsTrim (legacy_provider.getD "cloudflare"))
    if legacy = "google" then "8.8.8.8"
    else if legacy = "quad9" then "9.9.9.9"
    else "1.1.1.1"

/-- `map_dns_server_to_doh_endpoint`. -/
def mapDnsServerToDohEndpoint (dns_server : String) (custom_doh_url : Option String) : String :=
  let server := rsTrim dns_server
  let custom := rsTrim (custom_doh_url.getD "")
  if rsToLower server = "custom" ∧ custom ≠ "" then custom
  else if server = "1.1.1.1" ∨ server = "1.0.0.1" then "https://cloudflare-dns.com/dns-query"
  else if server = "8.8.8.8" ∨ server = "8.8.4.4" then "https://dns.google/resolve"
  else if server = "9.9.9.9" ∨ server = "149.112.112.112" then
    "https://dns.quad9.net:5053/dns-query"
  else if custom ≠ "" then custom
  else "https://cloudflare-dns.com/dns-query"

/-- `resolve_doh_endpoints`: the preferred endpoint followed by the three
well-known ones, deduplicated keeping first occurrences. -/
def resolveDohEndpoints (dns_server custom_dns_server custom_doh_url legacy_provider :
    Option String) : List String :=
  let selected_dns := resolveDnsServer dns_server custom_dns_server legacy_provider
  dedupKeepFirst [mapDnsServerToDohEndpoint selected_dns custom_doh_url,
    "https://cloudflare-dns.com/dns-query",
    "https://dns.google/resolve",
    "https://dns.quad9.net:5053/dns-query"]

/-! ## Host resolution cache (commands.rs) -/

def TOPOLOGY_HOST_CACHE_TTL_MS : Int := 5 * 60 * 1000

def TOPOLOGY_HOST_CACHE_MAX_ENTRIES : Nat := 6000

/-- One cache slot: write timestamp (ms) and the stored resolution. -/
structure TopologyHostCacheEntry where
  ts_ms : Int
  value : HostnameChainResult
deriving DecidableEq, Repr

/-- The process-wide `HashMap<String, TopologyHostCacheEntry>` modelled as an
association list with unique keys (list order stands in for the map's
unspecified iteration order). -/
abbrev TopologyCache : Type := List (String × TopologyHostCacheEntry)

/-- The `format!("{}|{}|{}|{}|{}|{}|{}", ...)` cache key. -/
def cacheKey (resolver_mode selected_dns_server doh_provider_key doh_custom_key : String)
    (max_hops : Nat) (disable_ptr_lookups : Bool) (host : String) : String :=
  resolver_mode ++ "|" ++ selected_dns_server ++ "|" ++ doh_provider_key ++ "|" ++
    doh_custom_key ++ "|" ++ toString max_hops ++ "|" ++
    (if disable_ptr_lookups then "true" else "false") ++ "|" ++ host

/-- The read side of the cache: `cache.get(key)` followed by the TTL check —
an entry older than the TTL is ignored (treated as a miss) without being
deleted. -/
def cacheReadHit (cache : TopologyCache) (now_ms : Int) (key : String) :
    Option HostnameChainResult :=
  match List.lookup key cache with
  | some entry =>
    if now_ms - entry.ts_ms ≤ TOPOLOGY_HOST_CACHE_TTL_MS then some entry.value else none
  | none => none

/-- `HashMap::insert`: replace any entry with the same key. -/
def cacheInsert (cache : TopologyCache) (key : String) (entry : TopologyHostCacheEntry) :
    TopologyCache :=
  (cache.filter (fun kv => kv.1 ≠ key)) ++ [(key, entry)]

/-- The insert pass of the write batch. -/
def cacheInsertAll (cache : TopologyCache) (write_ts : Int)
    (updates : List (String × HostnameChainResult)) : TopologyCache :=
  updates.foldl (fun c ku => cacheInsert c ku.1 ⟨write_ts, ku.2⟩) cache

/-- The `cache.retain(...)` TTL sweep of the write batch. -/
def cacheSweep (cache : TopologyCache) (write_ts : Int) : TopologyCache :=
  cache.filter (fun kv => write_ts - kv.2.ts_ms ≤ TOPOLOGY_HOST_CACHE_TTL_MS)

/-- The capacity pass: when above the cap, sort (key, ts) pairs by timestamp
(`sort_by_key` — a stable sort, modelled by `mergeSort`), and remove the
`len - cap` oldest keys from the map. -/
def cacheEvictOldest (cache : TopologyCache) : TopologyCache :=
  if TOPOLOGY_HOST_CACHE_MAX_ENTRIES < cache.length then
    let sorted := cache.mergeSort (fun a b => a.2.ts_ms ≤ b.2.ts_ms)
    let removedKeys :=
      (sorted.take (cache.length - TOPOLOGY_HOST_CACHE_MAX_ENTRIES)).map Prod.fst
    cache.filter (fun kv => ¬ removedKeys.contains kv.1)
  else cache

/-- One write batch (insert/refresh, sweep expired, evict oldest), performed
under the exclusive lock. -/
def cacheWritePass (cache : TopologyCache) (write_ts : Int)
    (updates : List (String × HostnameChainResult)) : TopologyCache :=
  cacheEvictOldest (cacheSweep (cacheInsertAll cache write_ts updates) write_ts)

/-- The call-site guard `if !cache_updates.is_empty()`: no updates, no write
batch. -/
def cacheWriteBatch (cache : TopologyCache) (write_ts : Int)
    (updates : List (String × HostnameChainResult)) : TopologyCache :=
  if updates.isEmpty then cache else cacheWritePass cache write_ts updates

/-! ## Batch orchestrator — `resolve_topology_batch` (commands.rs) -/

/-- The optional arguments of the `resolve_topology_batch` command. -/
structure BatchArgs where
  hostnames : List String
  max_hops : Option Nat
  service_hosts : Option (List String)
  doh_provider : Option String
  doh_custom_url : Option String
  resolver_mode : Option String
  dns_server : Option String
  custom_dns_server : Option String
  lookup_timeout_ms : Option Nat
  disable_ptr_lookups : Option Bool

/-- Defaulted and clamped `max_hops` (`u8`, default 15, clamp 1..=15). -/
def batchMaxHops (args : BatchArgs) : Nat := min 15 (max 1 (args.max_hops.getD 15))

/-- Defaulted and clamped lookup timeout (default 1200, clamp 250..=10000). -/
def batchTimeout (args : BatchArgs) : Nat := min 10000 (max 250 (args.lookup_timeout_ms.getD 1200))

/-- Normalized resolver mode (default "dns", trimmed, lowercased). -/
def batchResolverMode (args : BatchArgs) : String :=
  rsToLower (rsTrim (args.resolver_mode.getD "dns"))

/-- The selected recursive DNS server of the batch call. -/
def batchSelectedDns (args : BatchArgs) : String :=
  resolveDnsServer args.dns_server args.custom_dns_server args.doh_provider

/-- The DoH endpoint list handed to the chain resolver: populated only when
the resolver mode is "doh", empty otherwise. -/
def batchDohEndpoints (args : BatchArgs) : List String :=
  if batchResolverMode args = "doh" then
    resolveDohEndpoints (some (batchSelectedDns args)) args.custom_dns_server
      args.doh_custom_url args.doh_provider
  else []

/-- The `doh_provider` component of the cache key. -/
def batchDohProviderKey (args : BatchArgs) : String :=
  rsToLower (rsTrim (args.doh_provider.getD "cloudflare"))

/-- The `doh_custom_url` component of the cache key. -/
def batchDohCustomKey (args : BatchArgs) : String :=
  rsTrim (args.doh_custom_url.getD "")

/-- The cache key of one host under the batch configuration. -/
def batchCacheKey (args : BatchArgs) (host : String) : String :=
  cacheKey (batchResolverMode args) (batchSelectedDns args) (batchDohProviderKey args)
    (batchDohCustomKey args) (batchMaxHops args) ((args.disable_ptr_lookups).getD false) host

/-- The normalize-and-deduplicate loop over requested hostnames (first-seen
order kept, empty normalizations dropped); also used for service hosts. -/
def dedupNormalize (acc : List String) : List String → List String
  | [] => acc
  | h :: rest =>
    let n := normalizeDomain h
    if n = "" ∨ acc.contains n then dedupNormalize acc rest
    else dedupNormalize (acc ++ [n]) rest

/-- The cache-read partition: hosts with a TTL-valid entry land in the
resolved map (keyed by the unique host), the rest in the unresolved list. -/
def batchReadPhase (args : BatchArgs) (cache : TopologyCache) (now_ms : Int) :
    List String → List (String × HostnameChainResult) × List String
  | [] => ([], [])
  | host :: rest =>
    let (resolved, unresolved) := batchReadPhase args cache now_ms rest
    match cacheReadHit cache now_ms (batchCacheKey args host) with
    | some value => ((host, value) :: resolved, unresolved)
    | none => (resolved, host :: unresolved)

/-- Insert-replace into the `resolved_by_host` map (`HashMap::insert`). -/
def assocInsert (m : List (String × HostnameChainResult)) (k : String)
    (v : HostnameChainResult) : List (String × HostnameChainResult) :=
  (m.filter (fun kv => kv.1 ≠ k)) ++ [(k, v)]

/-- The chunked resolution fan-out over cache misses.  Chunks of 16 are
spawned and joined per chunk; since results land in a host-keyed map and the
unique hosts are distinct, completion order does not affect the map, and the
embedding processes the concatenation of the chunks sequentially.  Each
result is keyed by the re-normalization of its `name` and dropped when that
is empty; the same pairs are collected as the cache update batch. -/
def batchResolvePhase (env : NetEnv) (args : BatchArgs)
    (resolved : List (String × HostnameChainResult))
    (updates : List (String × HostnameChainResult)) :
    List String → List (String × HostnameChainResult) × List (String × HostnameChainResult)
  | [] => (resolved, updates)
  | host :: rest =>
    let result := resolveChainForHost env (batchDohEndpoints args) host (batchMaxHops args)
      (batchTimeout args) ((args.disable_ptr_lookups).getD false)
    let hostN := normalizeDomain result.name
    if hostN = "" then batchResolvePhase env args resolved updates rest
    else batchResolvePhase env args (assocInsert resolved hostN result)
      (updates ++ [(hostN, result)]) rest

/-- `resolved_by_host.remove(&host)`: the looked-up value (if any) and the
map without that key. -/
def assocRemove (m : List (String × HostnameChainResult)) (k : String) :
    Option HostnameChainResult × List (String × HostnameChainResult) :=
  match m.filter (fun kv => kv.1 = k) with
  | [] => (none, m)
  | kv :: _ => (some kv.2, m.filter (fun kv2 => kv2.1 ≠ k))

/-- The reassembly loop: walk the deduplicated hosts in order, pulling each
entry out of the resolved map; hosts without an entry are skipped. -/
def batchReassemble (m : List (String × HostnameChainResult)) :
    List String → List HostnameChainResult
  | [] => []
  | host :: rest =>
    match assocRemove m host with
    | (some value, m2) => value :: batchReassemble m2 rest
    | (none, m2) => batchReassemble m2 rest

/-- The probe fan-out (chunks of 8, each host probing `https://` and
`http://` concurrently); probe results are collected in the deterministic
sequential refinement of the join order. -/
def batchProbePhase (env : NetEnv) : List String → List ServiceProbeResult
  | [] => []
  | host :: rest =>
    ⟨host, env.probe ("https://" ++ host), env.probe ("http://" ++ host)⟩ ::
      batchProbePhase env rest

/-- `resolve_topology_batch` (commands.rs), returning the command result
together with the cache state after the write batch.  `build_dns_resolver`
is total (every branch returns `Ok`), so the only whole-call error source is
the construction of the reqwest client.  `now_ms` is the read-side
timestamp, `write_ts` the write-side one. -/
def resolveTopologyBatch (env : NetEnv) (args : BatchArgs) (cache : TopologyCache)
    (now_ms write_ts : Int) : Except String TopologyBatchResult × TopologyCache :=
  match env.clientBuild with
  | .error e => (.error e, cache)
  | .ok _ =>
    let unique_hosts := dedupNormalize [] args.hostnames
    let (resolved0, unresolved) := batchReadPhase args cache now_ms unique_hosts
    let (resolved, cache_updates) := batchResolvePhase env args resolved0 [] unresolved
    let cache2 := cacheWriteBatch cache write_ts cache_updates
    let resolutions := batchReassemble resolved unique_hosts
    let unique_probe_hosts := dedupNormalize [] (args.service_hosts.getD [])
    let probes := batchProbePhase env unique_probe_hosts
    (.ok ⟨resolutions, probes⟩, cache2)

/-! ## Concrete environments used by counterexamples and witnesses -/

/-- Environment where every IP string fails to parse. -/
def badIpEnv : SpfEnv where
  parseIp := fun _ => .error "invalid IP address syntax"
  resolverConf := .ok ()
  txt := fun _ => .ok []
  aAaaa := fun _ => .ok []
  mx := fun _ => .ok []
  ptr := fun _ => .ok []
  ipMatchesCidr := fun _ _ => false
  ipToString := fun a => a.repr

/-- Environment with a record of `-all` for `example.com`. -/
def minusAllEnv : SpfEnv where
  parseIp := fun s => .ok ⟨s⟩
  resolverConf := .ok ()
  txt := fun d => if d = "example.com" then .ok ["v=spf1 -all"] else .error "no records"
  aAaaa := fun _ => .ok []
  mx := fun _ => .ok []
  ptr := fun _ => .ok []
  ipMatchesCidr := fun _ _ => false
  ipToString := fun a => a.repr

/-- Environment realizing an include chain with 12 lookup-consuming
mechanisms in total: `a.test` includes `b.test` and `c.test` (5 non-matching
`a` mechanisms each) and then matches `all`. -/
def chainEnv : SpfEnv where
  parseIp := fun s => .ok ⟨s⟩
  resolverConf := .ok ()
  txt := fun d =>
    if d = "a.test" then .ok ["v=spf1 include:b.test include:c.test all"]
    else if d = "b.test" then .ok ["v=spf1 a a a a a"]
    else if d = "c.test" then .ok ["v=spf1 a a a a a"]
    else .error "no records"
  aAaaa := fun _ => .ok []
  mx := fun _ => .error "none"
  ptr := fun _ => .error "none"
  ipMatchesCidr := fun _ _ => false
  ipToString := fun a => a.repr

/-- Environment where A/AAAA resolution fails while the TXT record
`v=spf1 a -all` for `example.com` is served fine. -/
def dnsFailEnv : SpfEnv where
  parseIp := fun s => .ok ⟨s⟩
  resolverConf := .ok ()
  txt := fun d => if d = "example.com" then .ok ["v=spf1 a -all"] else .error "no records"
  aAaaa := fun _ => .error "dns failure"
  mx := fun _ => .error "dns failure"
  ptr := fun _ => .error "dns failure"
  ipMatchesCidr := fun _ _ => false
  ipToString := fun a => a.repr

/-- Environment where every TXT lookup fails. -/
def txtFailEnv : SpfEnv where
  parseIp := fun s => .ok ⟨s⟩
  resolverConf := .ok ()
  txt := fun _ => .error "lookup failed"
  aAaaa := fun _ => .ok []
  mx := fun _ => .ok []
  ptr := fun _ => .ok []
  ipMatchesCidr := fun _ _ => false
  ipToString := fun a => a.repr

/-- Environment whose record for `example.com` includes `example.com` itself. -/
def selfIncludeEnv : SpfEnv where
  parseIp := fun s => .ok ⟨s⟩
  resolverConf := .ok ()
  txt := fun d => if d = "example.com" then .ok ["v=spf1 include:example.com"]
    else .error "no records"
  aAaaa := fun _ => .ok []
  mx := fun _ => .ok []
  ptr := fun _ => .ok []
  ipMatchesCidr := fun _ _ => false
  ipToString := fun a => a.repr

/-- Environment serving ten non-matching `a` mechanisms for `ten.test`. -/
def tenLookupEnv : SpfEnv where
  parseIp := fun s => .ok ⟨s⟩
  resolverConf := .ok ()
  txt := fun d => if d = "ten.test" then .ok ["v=spf1 a a a a a a a a a a"]
    else .error "no records"
  aAaaa := fun _ => .ok []
  mx := fun _ => .ok []
  ptr := fun _ => .ok []
  ipMatchesCidr := fun _ _ => false
  ipToString := fun a => a.repr

/-- Network environment in which no lookup of any kind produces an answer. -/
def emptyNetEnv : NetEnv where
  clientBuild := .ok ()
  cnameLookup := fun _ => none
  v4Lookup := fun _ => none
  v6Lookup := fun _ => none
  ipParses := fun _ => false
  revLookup := fun _ => none
  dohRace := fun _ _ _ => []
  probe := fun _ => false

/-- The batch arguments of the spec's ordering example. -/
def exampleBatchArgs : BatchArgs :=
  ⟨["b.example", "a.example", "b.example"], none, none, none, none, none, none, none,
    none, none⟩

/-! ## Shared helper lemmas -/

/-- Consuming `n` non-matching, in-budget `a` mechanisms advances the
counter by `n` and continues with the rest. -/
theorem runMech_a_steps (env : SpfEnv)
    (simRec : String → String → Except String SPFSimulation)
    (domain : String) (a : IpAddr) (rest : List SPFMechanism)
    (h4 : env.aAaaa domain = .ok []) :
    ∀ n k, k + n ≤ MAX_LOOKUPS →
      runMechanisms env simRec domain a (List.replicate n ⟨none, "a", none⟩ ++ rest) k =
        runMechanisms env simRec domain a rest (k + n) := by
  intro n
  induction n with
  | zero => intro k _; simp
  | succ n ih =>
    intro k hk
    rw [List.replicate_succ, List.cons_append]
    have hstep : evalMechanism env simRec domain a ⟨none, "a", none⟩ k =
        (.ok (some false), k + 1) := by
      have hcap : ¬ (k + 1 > MAX_LOOKUPS) := by omega
      simp only [evalMechanism]
      simp only [Option.getD, h4, hcap]
      rfl
    simp only [runMechanisms, hstep]
    rw [ih (k + 1) (by omega)]
    congr 1
    omega

/-! ## Claims -/

/-- C1 (counterexample).  The lookup counter is not shared with nested
`include` evaluations: `a.test` spends 12 lookup-consuming mechanisms in
total (2 `include`s plus 5 non-matching `a`s inside each of `b.test` and
`c.test`), yet the run ends in `pass` with a folded-in total of 15 recorded
lookups instead of aborting with `permerror`. -/
theorem spf_cumulative_cap_counterexample :
    simulateSpf chainEnv 3 "a.test" "192.0.2.1" =
      .ok ⟨"pass", ["matched mechanism all"], 15⟩ := by decide

/-- C1 (amended).  Within a single `simulate_spf` call the counter (seeded
to 1 by the TXT fetch) is incremented and checked against the cap of 10
before each lookup-consuming mechanism, and exceeding it aborts that call
immediately with `permerror`: a record of ten non-matching `a` mechanisms
ends with `permerror` and counter 11 in any environment. -/
theorem spf_per_call_lookup_cap (env : SpfEnv) (fuel : Nat) (domain ip : String)
    (a : IpAddr)
    (h1 : env.parseIp ip = .ok a) (h2 : env.resolverConf = .ok ())
    (h3 : env.txt domain = .ok ["v=spf1 a a a a a a a a a a"])
    (h4 : env.aAaaa domain = .ok []) :
    simulateSpf env (fuel+1) domain ip =
      .ok ⟨"permerror", ["lookup limit reached"], 11⟩ := by
  have hfind : getSpfRecord env domain = .ok (some "v=spf1 a a a a a a a a a a") := by
    simp only [getSpfRecord, h3]; rfl
  have hp : parseSpf "v=spf1 a a a a a a a a a a" =
      some ⟨"v=spf1", List.replicate 10 ⟨none, "a", none⟩, []⟩ := by decide
  have hsplit : (List.replicate 10 (⟨none, "a", none⟩ : SPFMechanism)) =
      List.replicate 9 ⟨none, "a", none⟩ ++ [⟨none, "a", none⟩] := by decide
  have hlast : evalMechanism env (simulateSpf env fuel) domain a ⟨none, "a", none⟩ 10 =
      (.error "lookup limit", 11) := by
    simp only [evalMechanism]
    rfl
  simp only [simulateSpf, simulateSpfBody, h1, h2, hfind, Option.bind, hp, hsplit]
  rw [runMech_a_steps env (simulateSpf env fuel) domain a _ h4 9 1 (by decide)]
  simp only [runMechanisms, hlast]

/-- C1 (witness). -/
theorem spf_per_call_lookup_cap_witness :
    tenLookupEnv.txt "ten.test" = .ok ["v=spf1 a a a a a a a a a a"] ∧
    simulateSpf tenLookupEnv 1 "ten.test" "192.0.2.1" =
      .ok ⟨"permerror", ["lookup limit reached"], 11⟩ :=
  ⟨rfl, spf_per_call_lookup_cap tenLookupEnv 0 "ten.test" "192.0.2.1" ⟨"192.0.2.1"⟩
    rfl rfl rfl rfl⟩

/-- C2.  Revisiting an already-visited domain makes `walk` set the
graph-level cyclic flag and return without adding a node or descending; in
particular a domain whose record includes itself produces a graph with
`cyclic = true` and exactly one node (for the one domain). -/
theorem spf_graph_cycle_detection (env : SpfEnv) (d : String) (st : WalkSt) (fuel : Nat) :
    (st.visited.contains d = true →
      walk env (fuel+1) d st = .ok { st with cyclic := true }) ∧
    (env.resolverConf = .ok () →
      env.txt "example.com" = .ok ["v=spf1 include:example.com"] →
      buildSpfGraph env "example.com" =
        .ok ⟨[⟨"example.com", some "v=spf1 include:example.com"⟩],
          [⟨"example.com", "example.com", "include"⟩], 1, true⟩) := by
  constructor
  · intro h
    simp only [walk, h]
    rfl
  · intro h2 h3
    have hfind : getSpfRecord env "example.com" =
        .ok (some "v=spf1 include:example.com") := by
      simp only [getSpfRecord, h3]; rfl
    have hp : parseSpf "v=spf1 include:example.com" =
        some ⟨"v=spf1", [⟨none, "include", some "example.com"⟩], []⟩ := by decide
    simp only [buildSpfGraph, h2, walk, hfind, Option.bind, hp, walkMechs, walkMods]
    rfl

/-- C2 (witness). -/
theorem spf_graph_cycle_detection_witness :
    ((⟨[], [], 0, ["example.com"], false⟩ : WalkSt).visited.contains "example.com" = true ∧
      walk selfIncludeEnv 1 "example.com" ⟨[], [], 0, ["example.com"], false⟩ =
        .ok ⟨[], [], 0, ["example.com"], true⟩) ∧
    buildSpfGraph selfIncludeEnv "example.com" =
      .ok ⟨[⟨"example.com", some "v=spf1 include:example.com"⟩],
        [⟨"example.com", "example.com", "include"⟩], 1, true⟩ :=
  ⟨⟨by decide,
    (spf_graph_cycle_detection selfIncludeEnv "example.com"
      ⟨[], [], 0, ["example.com"], false⟩ 0).1 (by decide)⟩,
   (spf_graph_cycle_detection selfIncludeEnv "example.com"
      ⟨[], [], 0, ["example.com"], false⟩ 0).2 rfl rfl⟩

/-- C6 (counterexample).  A DNS failure while executing the `a` mechanism
does not abort `simulate_spf`: with the A/AAAA lookup failing, the call
still returns `Ok` with the structured verdict `permerror` (reason "lookup
limit reached"), so the failure is absorbed, not propagated. -/
theorem spf_dns_failure_absorbed_counterexample :
    dnsFailEnv.aAaaa "example.com" = .error "dns failure" ∧
    simulateSpf dnsFailEnv 2 "example.com" "192.0.2.1" =
      .ok ⟨"permerror", ["lookup limit reached"], 2⟩ := by decide

/-- C6 (amended).  A DNS failure encountered while executing a
lookup-consuming mechanism (here `a`; the loop treats every `Err` alike) is
absorbed by the mechanism loop into the structured verdict `permerror` with
reason "lookup limit reached" and the lookups spent so far — the call does
not abort.  Only the initial TXT fetch and `redirect` evaluation propagate
failures as hard call errors. -/
theorem spf_dns_failure_absorbed (env : SpfEnv) (fuel : Nat) (domain ip e : String)
    (a : IpAddr)
    (h1 : env.parseIp ip = .ok a) (h2 : env.resolverConf = .ok ())
    (h3 : env.txt domain = .ok ["v=spf1 a -all"])
    (h4 : env.aAaaa domain = .error e) :
    simulateSpf env (fuel+1) domain ip =
      .ok ⟨"permerror", ["lookup limit reached"], 2⟩ := by
  have hfind : getSpfRecord env domain = .ok (some "v=spf1 a -all") := by
    simp only [getSpfRecord, h3]; rfl
  have hp : parseSpf "v=spf1 a -all" =
      some ⟨"v=spf1", [⟨none, "a", none⟩, ⟨some "-", "all", none⟩], []⟩ := by decide
  have hstep : evalMechanism env (simulateSpf env fuel) domain a ⟨none, "a", none⟩ 1 =
      (.error e, 2) := by
    simp only [evalMechanism]
    simp only [Option.getD, h4]
    rfl
  simp only [simulateSpf, simulateSpfBody, h1, h2, hfind, Option.bind, hp,
    runMechanisms, hstep]

/-- C6 (witness). -/
theorem spf_dns_failure_absorbed_witness :
    dnsFailEnv.txt "example.com" = .ok ["v=spf1 a -all"] ∧
    simulateSpf dnsFailEnv 1 "example.com" "192.0.2.1" =
      .ok ⟨"permerror", ["lookup limit reached"], 2⟩ :=
  ⟨rfl, spf_dns_failure_absorbed dnsFailEnv 0 "example.com" "192.0.2.1" "dns failure"
    ⟨"192.0.2.1"⟩ rfl rfl rfl rfl⟩

/-- C7 (counterexample).  `build_spf_graph` does not always return a
structured result: with a working resolver configuration, a failing TXT
lookup during the walk makes the whole call return an error. -/
theorem spf_graph_txt_error_counterexample :
    txtFailEnv.resolverConf = .ok () ∧
    buildSpfGraph txtFailEnv "example.com" = .error "lookup failed" := by decide

/-- C7 (amended).  `resolve_topology_batch` always returns a structured
result once the HTTP client is constructed (its DNS-resolver construction is
total); `spf_graph`, by contrast, also fails the call as a whole whenever a
TXT lookup during the walk fails. -/
theorem batch_structured_result (env : NetEnv) (args : BatchArgs) (cache : TopologyCache)
    (now_ms write_ts : Int) (h : env.clientBuild = .ok ()) :
    ∃ r, (resolveTopologyBatch env args cache now_ms write_ts).1 = .ok r := by
  simp only [resolveTopologyBatch, h]
  exact ⟨_, rfl⟩

/-- C7 (witness). -/
theorem batch_structured_result_witness :
    ∃ r, (resolveTopologyBatch emptyNetEnv exampleBatchArgs [] 0 0).1 = .ok r :=
  batch_structured_result emptyNetEnv exampleBatchArgs [] 0 0 rfl

/-- C8.  Whenever the candidate IP parses and the domain's TXT record is
`v=spf1 -all`, the simulation returns verdict `fail` with exactly 1 lookup
(the TXT fetch), for every environment and candidate IP. -/
theorem spf_minus_all_fails (env : SpfEnv) (fuel : Nat) (domain ip : String) (a : IpAddr)
    (h1 : env.parseIp ip = .ok a) (h2 : env.resolverConf = .ok ())
    (h3 : env.txt domain = .ok ["v=spf1 -all"]) :
    simulateSpf env (fuel+1) domain ip = .ok ⟨"fail", ["matched mechanism all"], 1⟩ := by
  have hfind : getSpfRecord env domain = .ok (some "v=spf1 -all") := by
    simp only [getSpfRecord, h3]; rfl
  have hp : parseSpf "v=spf1 -all" = some ⟨"v=spf1", [⟨some "-", "all", none⟩], []⟩ := by
    decide
  simp only [simulateSpf, simulateSpfBody, h1, h2, hfind, Option.bind, hp,
    runMechanisms, evalMechanism]
  rfl

/-- C8 (witness). -/
theorem spf_minus_all_fails_witness :
    minusAllEnv.txt "example.com" = .ok ["v=spf1 -all"] ∧
    simulateSpf minusAllEnv 1 "example.com" "192.0.2.1" =
      .ok ⟨"fail", ["matched mechanism all"], 1⟩ :=
  ⟨rfl, spf_minus_all_fails minusAllEnv 0 "example.com" "192.0.2.1" ⟨"192.0.2.1"⟩
    rfl rfl rfl⟩

/-- C9.  When the normalized resolver mode is not "doh", the endpoint list
handed to the chain resolver is empty, and `query_doh_records` on an empty
endpoint list returns no answers for every environment (hence issues no HTTP
work: the result does not depend on the DoH race outcome at all). -/
theorem doh_only_in_doh_mode (args : BatchArgs) (h : batchResolverMode args ≠ "doh") :
    batchDohEndpoints args = [] ∧
    ∀ (env : NetEnv) (name record_type : String),
      queryDohRecords env [] name record_type = [] := by
  refine ⟨?_, ?_⟩
  · simp only [batchDohEndpoints, h]
    rfl
  · intro env name record_type
    rfl

/-- C9 (witness). -/
theorem doh_only_in_doh_mode_witness :
    batchResolverMode exampleBatchArgs ≠ "doh" ∧
    batchDohEndpoints exampleBatchArgs = [] ∧
    queryDohRecords emptyNetEnv [] "example.com" "CNAME" = [] :=
  ⟨by decide, (doh_only_in_doh_mode exampleBatchArgs (by decide)).1,
    (doh_only_in_doh_mode exampleBatchArgs (by decide)).2 emptyNetEnv "example.com" "CNAME"⟩

/-- C10.  An IP argument that fails to parse makes `simulate_spf` return
that parse error unconditionally — for every environment and domain, so in
particular before any DNS lookup can influence the outcome. -/
theorem spf_bad_ip_errors (env : SpfEnv) (fuel : Nat) (domain ip e : String)
    (h : env.parseIp ip = .error e) :
    simulateSpf env (fuel+1) domain ip = .error e := by
  simp only [simulateSpf, simulateSpfBody, h]

/-- C10 (witness). -/
theorem spf_bad_ip_errors_witness :
    badIpEnv.parseIp "not-an-ip" = .error "invalid IP address syntax" ∧
    simulateSpf badIpEnv 1 "example.com" "not-an-ip" =
      .error "invalid IP address syntax" :=
  ⟨rfl, spf_bad_ip_errors badIpEnv 0 "example.com" "not-an-ip"
    "invalid IP address syntax" rfl⟩

/-! ## C3: unresolved marking of the chain resolver -/

theorem chainFinish_name (env : NetEnv) (eps : List String) (name : String)
    (chain : List String) (cur : String) (dp : Bool) :
    (chainFinish env eps name chain cur dp).name = name := rfl

theorem chainFinish_chain (env : NetEnv) (eps : List String) (name : String)
    (chain : List String) (cur : String) (dp : Bool) :
    (chainFinish env eps name chain cur dp).chain = chain := rfl

/-- The unresolved marking, abstracted over the final address lists. -/
theorem unresolved_error_iff (chain ipv4 ipv6 : List String) :
    ((if chain.length ≤ 1 ∧ ipv4.isEmpty ∧ ipv6.isEmpty then some NO_RECORDS_MSG
      else none) = some NO_RECORDS_MSG) ↔
      (chain.length ≤ 1 ∧ ipv4 = [] ∧ ipv6 = []) := by
  split
  · rename_i h
    simp only [List.isEmpty_iff] at h
    simp [h.1, h.2.1, h.2.2]
  · rename_i h
    constructor
    · intro hfalse
      exact absurd hfalse (by simp)
    · intro hrhs
      exact absurd ⟨hrhs.1, by simp [hrhs.2.1], by simp [hrhs.2.2]⟩ h

theorem chainFinish_error_iff (env : NetEnv) (eps : List String) (name : String)
    (chain : List String) (cur : String) (dp : Bool) :
    ((chainFinish env eps name chain cur dp).error = some NO_RECORDS_MSG ↔
      (chain.length ≤ 1 ∧ (chainFinish env eps name chain cur dp).ipv4 = [] ∧
        (chainFinish env eps name chain cur dp).ipv6 = [])) := by
  simp only [chainFinish]
  exact unresolved_error_iff chain _ _

/-- The CNAME loop only ever appends to the chain it is given. -/
theorem cnameLoop_chain_ext (env : NetEnv) (eps : List String) :
    ∀ (fuel : Nat) (cur : String) (chain seen : List String),
      ∃ ext, (cnameLoop env eps fuel cur chain seen).1 = chain ++ ext := by
  intro fuel
  induction fuel with
  | zero => intro cur chain seen; exact ⟨[], by simp [cnameLoop]⟩
  | succ n ih =>
    intro cur chain seen
    simp only [cnameLoop]
    match h : cnameStep env eps cur with
    | none => exact ⟨[], by simp⟩
    | some nextName =>
      by_cases hseen : seen.contains nextName
      · simp only [hseen]
        exact ⟨[], by simp⟩
      · simp only [hseen]
        obtain ⟨ext2, hext2⟩ := ih nextName (chain ++ [nextName]) (seen ++ [nextName])
        refine ⟨[nextName] ++ ext2, ?_⟩
        simp only [Bool.false_eq_true, if_neg, not_false_eq_true]
        rw [hext2]
        simp

/-- With no answers from the resolver or DoH, the finish phase yields empty
address sets and flags the single-name chain unresolved. -/
theorem chainFinish_no_answers (env : NetEnv) (eps : List String) (name : String)
    (chain : List String) (cur : String) (dp : Bool)
    (hv4 : env.v4Lookup cur = none) (hv6 : env.v6Lookup cur = none)
    (hd : ∀ l n ty, env.dohRace l n ty = []) :
    chainFinish env eps name chain cur dp =
      ⟨name, chain, cur, [], [], [],
        if chain.length ≤ 1 then some NO_RECORDS_MSG else none⟩ := by
  have hq : ∀ ty, queryDohRecords env eps cur ty = [] := by
    intro ty
    by_cases h : eps.isEmpty <;> simp [queryDohRecords, h, hd]
  simp [chainFinish, hv4, hv6, hq, revPhase]

/-- C3.  On a non-empty normalized hostname, the result carries
`error = "no CNAME/A/AAAA records found"` iff the chain is exactly the query
name and both address sets are empty; and with no DNS records at all the
error is set and the chain has length 1. -/
theorem resolve_chain_unresolved_iff (env : NetEnv) (eps : List String) (host : String)
    (mh tmo : Nat) (dp : Bool) (hname : normalizeDomain host ≠ "")
    (r : HostnameChainResult) (hr : r = resolveChainForHost env eps host mh tmo dp) :
    (r.error = some NO_RECORDS_MSG ↔ (r.chain = [r.name] ∧ r.ipv4 = [] ∧ r.ipv6 = [])) ∧
    ((∀ s, env.cnameLookup s = none) → (∀ l n ty, env.dohRace l n ty = []) →
      (∀ s, env.v4Lookup s = none) → (∀ s, env.v6Lookup s = none) →
      r.error = some NO_RECORDS_MSG ∧ r.chain.length = 1) := by
  subst hr
  simp only [resolveChainForHost]
  rw [if_neg hname]
  rcases hloop : cnameLoop env eps mh (normalizeDomain host) [normalizeDomain host]
    [normalizeDomain host] with ⟨chain, cur⟩
  obtain ⟨ext, hext⟩ := cnameLoop_chain_ext env eps mh (normalizeDomain host)
    [normalizeDomain host] [normalizeDomain host]
  rw [hloop] at hext
  simp only at hext
  constructor
  · rw [chainFinish_error_iff, chainFinish_name, chainFinish_chain]
    constructor
    · rintro ⟨hlen, h4, h6⟩
      refine ⟨?_, h4, h6⟩
      rw [hext] at hlen ⊢
      simp at hlen
      simp [hlen]
    · rintro ⟨hchain, h4, h6⟩
      refine ⟨?_, h4, h6⟩
      rw [hchain]
      simp
  · intro hc hd hv4 hv6
    have hstep : ∀ s, cnameStep env eps s = none := by
      intro s
      simp only [cnameStep, hc]
      by_cases h : eps.isEmpty <;> simp [queryDohRecords, h, hd]
    have hloop2 : cnameLoop env eps mh (normalizeDomain host) [normalizeDomain host]
        [normalizeDomain host] = ([normalizeDomain host], normalizeDomain host) := by
      cases mh with
      | zero => rfl
      | succ n => simp only [cnameLoop, hstep]
    rw [hloop] at hloop2
    have hchain : chain = [normalizeDomain host] := congrArg Prod.fst hloop2
    rw [chainFinish_no_answers env eps _ chain cur dp (hv4 cur) (hv6 cur) hd]
    rw [hchain]
    simp

/-- C3 (witness). -/
theorem resolve_chain_unresolved_iff_witness :
    normalizeDomain "example.com" ≠ "" ∧
    ((resolveChainForHost emptyNetEnv [] "example.com" 15 1200 false).error =
        some NO_RECORDS_MSG ∧
      (resolveChainForHost emptyNetEnv [] "example.com" 15 1200 false).chain.length = 1) :=
  ⟨by decide,
    (resolve_chain_unresolved_iff emptyNetEnv [] "example.com" 15 1200 false (by decide)
      _ rfl).2 (fun _ => rfl) (fun _ _ _ => rfl) (fun _ => rfl) (fun _ => rfl)⟩

/-! ## C4: batch ordering -/

/-- First entry stored under a key in the `resolved_by_host` map. -/
def findFirst (m : List (String × HostnameChainResult)) (k : String) :
    Option HostnameChainResult :=
  match m.filter (fun kv => kv.1 = k) with
  | [] => none
  | kv :: _ => some kv.2

theorem filter_key_of_filter_ne (m : List (String × HostnameChainResult)) (x y : String)
    (h : x ≠ y) :
    (m.filter (fun kv => kv.1 ≠ x)).filter (fun kv => kv.1 = y) =
      m.filter (fun kv => kv.1 = y) := by
  rw [List.filter_filter]
  apply List.filter_congr
  intro a _
  by_cases hy : a.1 = y
  · have hx : ¬ (a.1 = x) := fun he => h (he.symm.trans hy)
    simp [hy, hx]
    exact fun he => h he.symm
  · simp [hy]

theorem findFirst_filter_ne (m : List (String × HostnameChainResult)) (x y : String)
    (h : x ≠ y) :
    findFirst (m.filter (fun kv => kv.1 ≠ x)) y = findFirst m y := by
  simp only [findFirst, filter_key_of_filter_ne m x y h]

theorem findFirst_insert_self (m : List (String × HostnameChainResult)) (k : String)
    (v : HostnameChainResult) :
    findFirst (assocInsert m k v) k = some v := by
  have hnil : (m.filter (fun kv => kv.1 ≠ k)).filter (fun kv => kv.1 = k) = [] := by
    induction m with
    | nil => rfl
    | cons kv rest ih =>
      by_cases hk : kv.1 = k <;> simp [List.filter_cons, hk, ih]
  simp [findFirst, assocInsert, List.filter_append, hnil]

theorem findFirst_insert_ne (m : List (String × HostnameChainResult)) (k x : String)
    (v : HostnameChainResult) (h : x ≠ k) :
    findFirst (assocInsert m k v) x = findFirst m x := by
  have hkx : k ≠ x := fun he => h he.symm
  have h1 : (assocInsert m k v).filter (fun kv => kv.1 = x) =
      m.filter (fun kv => kv.1 = x) := by
    simp only [assocInsert, List.filter_append]
    rw [filter_key_of_filter_ne m k x hkx]
    have h2 : List.filter (fun kv => decide (kv.1 = x)) [(k, v)] = [] := by simp [hkx]
    rw [h2, List.append_nil]
  simp only [findFirst, h1]

/-- Pulling hosts out of a map that has a correctly-named entry for each of
them reproduces the host list. -/
theorem batchReassemble_names (hosts : List String) :
    ∀ m, hosts.Nodup →
      (∀ x ∈ hosts, ∃ v, findFirst m x = some v ∧ v.name = x) →
      (batchReassemble m hosts).map (fun r => r.name) = hosts := by
  induction hosts with
  | nil => intro m _ _; rfl
  | cons x rest ih =>
    intro m hnodup hall
    obtain ⟨v, hfind, hname⟩ := hall x (List.mem_cons_self x rest)
    match hm : m.filter (fun kv => kv.1 = x) with
    | [] =>
      have : (none : Option HostnameChainResult) = some v := by
        rw [← hfind]; simp [findFirst, hm]
      exact absurd this (by simp)
    | kv :: tail =>
      have hfind2 : some kv.2 = some v := by
        rw [← hfind]; simp [findFirst, hm]
      have hv : kv.2 = v := Option.some.inj hfind2
      have hrm : assocRemove m x = (some kv.2, m.filter (fun kv2 => kv2.1 ≠ x)) := by
        simp [assocRemove, hm]
      simp only [batchReassemble, hrm, hv]
      have hx_not : x ∉ rest := (List.nodup_cons.mp hnodup).1
      have htail : ∀ y ∈ rest, ∃ w,
          findFirst (m.filter (fun kv2 => kv2.1 ≠ x)) y = some w ∧ w.name = y := by
        intro y hy
        have hxy : x ≠ y := fun he => hx_not (he ▸ hy)
        rw [findFirst_filter_ne m x y hxy]
        exact hall y (List.mem_cons_of_mem x hy)
      simp only [List.map_cons, hname]
      rw [ih _ (List.nodup_cons.mp hnodup).2 htail]

/-- The `name` field of a chain result is always the normalized input host. -/
theorem resolveChainForHost_name (env : NetEnv) (eps : List String) (host : String)
    (mh tmo : Nat) (dp : Bool) :
    (resolveChainForHost env eps host mh tmo dp).name = normalizeDomain host := by
  simp only [resolveChainForHost]
  split
  · rfl
  · rcases hloop : cnameLoop env eps mh (normalizeDomain host) [normalizeDomain host]
      [normalizeDomain host] with ⟨c, u⟩
    rfl

/-- A cache read hit comes from a stored entry that is within TTL. -/
theorem cacheReadHit_spec (cache : TopologyCache) (now_ms : Int) (key : String)
    (v : HostnameChainResult) (h : cacheReadHit cache now_ms key = some v) :
    ∃ e, List.lookup key cache = some e ∧
      now_ms - e.ts_ms ≤ TOPOLOGY_HOST_CACHE_TTL_MS ∧ v = e.value := by
  unfold cacheReadHit at h
  match hl : List.lookup key cache with
  | none => exact absurd h (by simp [hl])
  | some e =>
    simp only [hl] at h
    by_cases ht : now_ms - e.ts_ms ≤ TOPOLOGY_HOST_CACHE_TTL_MS
    · rw [if_pos ht] at h
      exact ⟨e, rfl, ht, (Option.some.inj h).symm⟩
    · rw [if_neg ht] at h
      exact absurd h (by simp)

theorem cacheReadHit_name (args : BatchArgs) (cache : TopologyCache) (now_ms : Int)
    (hcache : ∀ h e, List.lookup (batchCacheKey args h) cache = some e →
      e.value.name = h)
    (h : String) (v : HostnameChainResult)
    (hhit : cacheReadHit cache now_ms (batchCacheKey args h) = some v) : v.name = h := by
  obtain ⟨e, hl, _, hv⟩ := cacheReadHit_spec cache now_ms (batchCacheKey args h) v hhit
  rw [hv]
  exact hcache h e hl

/-- The cache-read partition keys hit entries by their host, covers every
host by a hit or a miss, and keeps the misses a sublist of the input. -/
theorem batchReadPhase_props (args : BatchArgs) (cache : TopologyCache) (now_ms : Int)
    (hcache : ∀ h e, List.lookup (batchCacheKey args h) cache = some e →
      e.value.name = h) :
    ∀ (hosts : List String) res unres,
      batchReadPhase args cache now_ms hosts = (res, unres) →
      (∀ kv ∈ res, kv.2.name = kv.1) ∧
      (∀ x ∈ hosts, x ∈ res.map Prod.fst ∨ x ∈ unres) ∧
      unres.Sublist hosts := by
  intro hosts
  induction hosts with
  | nil =>
    intro res unres h
    obtain ⟨h1, h2⟩ := Prod.mk.injEq .. ▸ h
    subst h1; subst h2
    exact ⟨by simp, by simp, List.Sublist.refl _⟩
  | cons host rest ih =>
    intro res unres h
    rcases hrec : batchReadPhase args cache now_ms rest with ⟨res2, unres2⟩
    obtain ⟨hall2, hmem2, hsub2⟩ := ih res2 unres2 hrec
    simp only [batchReadPhase, hrec] at h
    match hhit : cacheReadHit cache now_ms (batchCacheKey args host) with
    | some value =>
      rw [hhit] at h
      obtain ⟨h1, h2⟩ := Prod.mk.injEq .. ▸ h
      subst h1; subst h2
      refine ⟨?_, ?_, hsub2.cons host⟩
      · intro kv hkv
        rcases List.mem_cons.mp hkv with hkv | hkv
        · rw [hkv]
          exact cacheReadHit_name args cache now_ms hcache host value hhit
        · exact hall2 kv hkv
      · intro x hx
        rcases List.mem_cons.mp hx with hx | hx
        · left; rw [hx]; simp
        · rcases hmem2 x hx with hm | hm
          · left; simp only [List.map_cons]; exact List.mem_cons_of_mem _ hm
          · right; exact hm
    | none =>
      rw [hhit] at h
      obtain ⟨h1, h2⟩ := Prod.mk.injEq .. ▸ h
      subst h1; subst h2
      refine ⟨hall2, ?_, hsub2.cons₂ host⟩
      · intro x hx
        rcases List.mem_cons.mp hx with hx | hx
        · right; rw [hx]; exact List.mem_cons_self host unres2
        · rcases hmem2 x hx with hm | hm
          · left; exact hm
          · right; exact List.mem_cons_of_mem _ hm

theorem findFirst_of_names (m : List (String × HostnameChainResult)) (x : String)
    (hall : ∀ kv ∈ m, kv.2.name = kv.1) (hx : x ∈ m.map Prod.fst) :
    ∃ v, findFirst m x = some v ∧ v.name = x := by
  induction m with
  | nil => simp at hx
  | cons kv rest ih =>
    by_cases hk : kv.1 = x
    · refine ⟨kv.2, ?_, by rw [hall kv (List.mem_cons_self kv rest), hk]⟩
      simp [findFirst, List.filter_cons, hk]
    · have hx2 : x ∈ rest.map Prod.fst := by
        rcases List.mem_map.mp hx with ⟨kv2, hkv2, hfst⟩
        rcases List.mem_cons.mp hkv2 with he | hm
        · exact absurd (he ▸ hfst) hk
        · exact List.mem_map.mpr ⟨kv2, hm, hfst⟩
      obtain ⟨v, hf, hn⟩ := ih (fun kv2 h2 => hall kv2 (List.mem_cons_of_mem _ h2)) hx2
      refine ⟨v, ?_, hn⟩
      simpa [findFirst, List.filter_cons, hk] using hf

/-- After the resolve phase, every host that was covered by a read hit or
listed as a miss has a correctly-named entry in the map. -/
theorem batchResolvePhase_find (env : NetEnv) (args : BatchArgs) :
    ∀ (unres : List String) (m updates : List (String × HostnameChainResult)) (x : String),
      (∀ h ∈ unres, normalizeDomain h = h ∧ h ≠ "") →
      ((∃ v, findFirst m x = some v ∧ v.name = x) ∨ x ∈ unres) →
      ∃ v, findFirst (batchResolvePhase env args m updates unres).1 x = some v ∧
        v.name = x := by
  intro unres
  induction unres with
  | nil =>
    intro m updates x _ hx
    rcases hx with hx | hx
    · exact hx
    · exact absurd hx (List.not_mem_nil x)
  | cons h rest ih =>
    intro m updates x hgood hx
    have hgh := hgood h (List.mem_cons_self h rest)
    have hres_name : (resolveChainForHost env (batchDohEndpoints args) h (batchMaxHops args)
        (batchTimeout args) ((args.disable_ptr_lookups).getD false)).name =
        normalizeDomain h :=
      resolveChainForHost_name env (batchDohEndpoints args) h (batchMaxHops args)
        (batchTimeout args) ((args.disable_ptr_lookups).getD false)
    have hnorm : normalizeDomain (resolveChainForHost env (batchDohEndpoints args) h
        (batchMaxHops args) (batchTimeout args)
        ((args.disable_ptr_lookups).getD false)).name = h := by
      rw [hres_name, hgh.1, hgh.1]
    simp only [batchResolvePhase, hnorm]
    rw [if_neg hgh.2]
    apply ih
    · intro h2 hh2
      exact hgood h2 (List.mem_cons_of_mem _ hh2)
    · rcases hx with ⟨v, hv, hn⟩ | hx
      · by_cases hxh : x = h
        · subst hxh
          left
          exact ⟨_, findFirst_insert_self m x _, by rw [hres_name, hgh.1]⟩
        · left
          exact ⟨v, by rw [findFirst_insert_ne m h x _ hxh]; exact hv, hn⟩
      · rcases List.mem_cons.mp hx with hxh | hxr
        · subst hxh
          left
          exact ⟨_, findFirst_insert_self m x _, by rw [hres_name, hgh.1]⟩
        · right
          exact hxr

theorem dedupNormalize_nodup : ∀ (l acc : List String), acc.Nodup →
    (dedupNormalize acc l).Nodup := by
  intro l
  induction l with
  | nil => intro acc h; exact h
  | cons h rest ih =>
    intro acc hacc
    simp only [dedupNormalize]
    split
    · exact ih acc hacc
    · rename_i hcond
      apply ih
      rw [List.nodup_append]
      refine ⟨hacc, List.nodup_singleton _, ?_⟩
      intro a ha hmem
      rcases List.mem_singleton.mp hmem with rfl
      exact hcond (Or.inr (by simpa using ha))

theorem dedupNormalize_mem : ∀ (l acc : List String) (x : String),
    x ∈ dedupNormalize acc l →
    x ∈ acc ∨ (x ≠ "" ∧ ∃ y ∈ l, x = normalizeDomain y) := by
  intro l
  induction l with
  | nil => intro acc x hx; exact Or.inl hx
  | cons h rest ih =>
    intro acc x hx
    simp only [dedupNormalize] at hx
    by_cases hcond : normalizeDomain h = "" ∨ acc.contains (normalizeDomain h)
    · rw [if_pos hcond] at hx
      rcases ih acc x hx with hm | ⟨hne, y, hy, hxy⟩
      · exact Or.inl hm
      · exact Or.inr ⟨hne, y, List.mem_cons_of_mem _ hy, hxy⟩
    · rw [if_neg hcond] at hx
      rcases ih (acc ++ [normalizeDomain h]) x hx with hm | ⟨hne, y, hy, hxy⟩
      · rcases List.mem_append.mp hm with hm2 | hm2
        · exact Or.inl hm2
        · rcases List.mem_singleton.mp hm2 with rfl
          refine Or.inr ⟨?_, h, List.mem_cons_self h rest, rfl⟩
          intro he
          exact hcond (Or.inl he)
      · exact Or.inr ⟨hne, y, List.mem_cons_of_mem _ hy, hxy⟩

/-- C4.  The batch normalizes and deduplicates hostnames in first-seen
order, and the resolutions come back in exactly that order (one entry per
deduplicated host, pulled from the cache-hit or freshly-resolved map).
The hypotheses say the HTTP client builds, normalization is idempotent on
the requested hostnames (true of ordinary hostnames), and cached values
carry the host they were stored under (true of entries the batch itself
wrote). -/
theorem batch_order_preserved (env : NetEnv) (args : BatchArgs) (cache : TopologyCache)
    (now_ms write_ts : Int)
    (hclient : env.clientBuild = .ok ())
    (hid : ∀ h ∈ args.hostnames, normalizeDomain (normalizeDomain h) = normalizeDomain h)
    (hcache : ∀ h e, List.lookup (batchCacheKey args h) cache = some e →
      e.value.name = h) :
    ∃ r, (resolveTopologyBatch env args cache now_ms write_ts).1 = .ok r ∧
      r.resolutions.map (fun v => v.name) = dedupNormalize [] args.hostnames := by
  have hgoodU : ∀ x ∈ dedupNormalize [] args.hostnames,
      normalizeDomain x = x ∧ x ≠ "" := by
    intro x hx
    rcases dedupNormalize_mem args.hostnames [] x hx with hc | ⟨hne, y, hy, hxy⟩
    · exact absurd hc (List.not_mem_nil x)
    · exact ⟨by rw [hxy]; exact hid y hy, hne⟩
  rcases hread : batchReadPhase args cache now_ms (dedupNormalize [] args.hostnames)
    with ⟨res0, unres⟩
  obtain ⟨hall0, hmem0, hsub0⟩ :=
    batchReadPhase_props args cache now_ms hcache _ res0 unres hread
  rcases hres : batchResolvePhase env args res0 [] unres with ⟨resolved, ups⟩
  simp only [resolveTopologyBatch, hclient, hread, hres]
  refine ⟨_, rfl, ?_⟩
  apply batchReassemble_names
  · exact dedupNormalize_nodup args.hostnames [] List.nodup_nil
  · intro x hx
    have hstart : (∃ v, findFirst res0 x = some v ∧ v.name = x) ∨ x ∈ unres := by
      rcases hmem0 x hx with hm | hm
      · exact Or.inl (findFirst_of_names res0 x hall0 hm)
      · exact Or.inr hm
    have hfinal := batchResolvePhase_find env args unres res0 [] x
      (fun h hh => hgoodU h (hsub0.subset hh)) hstart
    rw [hres] at hfinal
    exact hfinal

/-- C4 (witness): the spec's example `[b.example, a.example, b.example]`
yields exactly the two resolutions `[b.example, a.example]` in order. -/
theorem batch_order_preserved_witness :
    ∃ r, (resolveTopologyBatch emptyNetEnv exampleBatchArgs [] 0 0).1 = .ok r ∧
      r.resolutions.map (fun v => v.name) = ["b.example", "a.example"] := by
  obtain ⟨r, h1, h2⟩ := batch_order_preserved emptyNetEnv exampleBatchArgs [] 0 0 rfl
    (by decide) (fun h e hl => absurd hl (by simp))
  exact ⟨r, h1, by rw [h2]; decide⟩

/-! ## C5: cache TTL and capacity invariants -/

theorem cacheEvictOldest_subset (c : TopologyCache) :
    ∀ kv ∈ cacheEvictOldest c, kv ∈ c := by
  intro kv hkv
  unfold cacheEvictOldest at hkv
  split at hkv
  · exact (List.mem_filter.mp hkv).1
  · exact hkv

theorem cacheSweep_fresh (c : TopologyCache) (write_ts : Int) :
    ∀ kv ∈ cacheSweep c write_ts, write_ts - kv.2.ts_ms ≤ TOPOLOGY_HOST_CACHE_TTL_MS := by
  intro kv hkv
  have := (List.mem_filter.mp hkv).2
  simpa using this

theorem filter_not_removed_length (c sorted : List (String × TopologyHostCacheEntry))
    (hperm : sorted.Perm c) (rc : Nat) (hrc : rc ≤ sorted.length) :
    (c.filter
      (fun kv => ¬ ((sorted.take rc).map Prod.fst).contains kv.1)).length ≤
      c.length - rc := by
  have hcongr : c.filter (fun kv => ¬ ((sorted.take rc).map Prod.fst).contains kv.1) =
      c.filter (fun kv => !(((sorted.take rc).map Prod.fst).contains kv.1)) := by
    apply List.filter_congr
    intro a _
    by_cases h : ((sorted.take rc).map Prod.fst).contains a.1 <;> simp [h]
  rw [hcongr]
  have hsum : (c.filter (fun kv => ((sorted.take rc).map Prod.fst).contains kv.1)).length +
      (c.filter (fun kv => !(((sorted.take rc).map Prod.fst).contains kv.1))).length =
      c.length := by
    have hp := List.filter_append_perm
      (fun kv => ((sorted.take rc).map Prod.fst).contains kv.1) c
    have := hp.length_eq
    rw [List.length_append] at this
    exact this
  have hcount : rc ≤
      (c.filter (fun kv => ((sorted.take rc).map Prod.fst).contains kv.1)).length := by
    rw [← List.countP_eq_length_filter, ← hperm.countP_eq]
    have h1 : rc = (sorted.take rc).length := by
      rw [List.length_take]
      omega
    have h2 : List.countP (fun kv => ((sorted.take rc).map Prod.fst).contains kv.1)
        (sorted.take rc) = (sorted.take rc).length := by
      rw [List.countP_eq_length]
      intro a ha
      have hmem : a.1 ∈ (sorted.take rc).map Prod.fst :=
        List.mem_map_of_mem Prod.fst ha
      simpa using hmem
    calc rc = (sorted.take rc).length := h1
      _ = List.countP (fun kv => ((sorted.take rc).map Prod.fst).contains kv.1)
            (sorted.take rc) := h2.symm
      _ ≤ List.countP (fun kv => ((sorted.take rc).map Prod.fst).contains kv.1) sorted := by
          have hgen : ∀ (p : (String × TopologyHostCacheEntry) → Bool),
              List.countP p (sorted.take rc) ≤ List.countP p sorted := by
            intro p
            conv_rhs => rw [← List.take_append_drop rc sorted]
            rw [List.countP_append]
            omega
          exact hgen _
  omega

theorem cacheEvictOldest_length (c : TopologyCache) :
    (cacheEvictOldest c).length ≤ TOPOLOGY_HOST_CACHE_MAX_ENTRIES := by
  unfold cacheEvictOldest
  split
  · rename_i hlen
    have hperm : (c.mergeSort (fun a b => a.2.ts_ms ≤ b.2.ts_ms)).Perm c :=
      List.mergeSort_perm c _
    have hrc : c.length - TOPOLOGY_HOST_CACHE_MAX_ENTRIES ≤
        (c.mergeSort (fun a b => a.2.ts_ms ≤ b.2.ts_ms)).length := by
      rw [hperm.length_eq]
      omega
    have hle := filter_not_removed_length c _ hperm
      (c.length - TOPOLOGY_HOST_CACHE_MAX_ENTRIES) hrc
    refine le_trans hle (le_of_eq ?_)
    omega
  · rename_i hlen
    omega


theorem cacheInsert_keys_nodup (c : TopologyCache) (k : String)
    (e : TopologyHostCacheEntry) (h : (c.map Prod.fst).Nodup) :
    ((cacheInsert c k e).map Prod.fst).Nodup := by
  unfold cacheInsert
  rw [List.map_append, List.nodup_append]
  refine ⟨((List.filter_sublist c).map Prod.fst).nodup h, by simp, ?_⟩
  intro a ha hmem
  have hak : a = k := by simpa using hmem
  rcases List.mem_map.mp ha with ⟨kv, hkv, hfst⟩
  have hne := (List.mem_filter.mp hkv).2
  simp only [decide_eq_true_eq] at hne
  exact hne (hfst.trans hak)

theorem cacheInsertAll_keys_nodup (write_ts : Int) :
    ∀ (updates : List (String × HostnameChainResult)) (c : TopologyCache),
      (c.map Prod.fst).Nodup → ((cacheInsertAll c write_ts updates).map Prod.fst).Nodup := by
  intro updates
  induction updates with
  | nil => intro c h; exact h
  | cons u rest ih =>
    intro c h
    unfold cacheInsertAll
    rw [List.foldl_cons]
    exact ih (cacheInsert c u.1 ⟨write_ts, u.2⟩) (cacheInsert_keys_nodup c u.1 _ h)

theorem cacheSweep_keys_nodup (c : TopologyCache) (write_ts : Int)
    (h : (c.map Prod.fst).Nodup) : ((cacheSweep c write_ts).map Prod.fst).Nodup :=
  ((List.filter_sublist c).map Prod.fst).nodup h

/-- In a timestamp-sorted association list with distinct keys, any element
whose key lies among the first `rc` keys has a timestamp no larger than that
of any element whose key does not. -/
theorem take_oldest_le (S : List (String × TopologyHostCacheEntry)) (rc : Nat)
    (hsorted : S.Pairwise (fun a b => a.2.ts_ms ≤ b.2.ts_ms))
    (hkeys : (S.map Prod.fst).Nodup)
    (kv kv2 : String × TopologyHostCacheEntry) (hkv : kv ∈ S) (hkv2 : kv2 ∈ S)
    (hin : kv.1 ∈ (S.take rc).map Prod.fst)
    (hout : kv2.1 ∉ (S.take rc).map Prod.fst) :
    kv.2.ts_ms ≤ kv2.2.ts_ms := by
  have hmem : kv ∈ S.take rc ++ S.drop rc := by rw [List.take_append_drop]; exact hkv
  have hmem2 : kv2 ∈ S.take rc ++ S.drop rc := by rw [List.take_append_drop]; exact hkv2
  have hkeys2 : ((S.take rc ++ S.drop rc).map Prod.fst).Nodup := by
    rw [List.take_append_drop]; exact hkeys
  rw [List.map_append, List.nodup_append] at hkeys2
  have htake : kv ∈ S.take rc := by
    rcases List.mem_append.mp hmem with hm | hm
    · exact hm
    · exact absurd (List.mem_map_of_mem Prod.fst hm) (fun hc => hkeys2.2.2 hin hc)
  have hdrop : kv2 ∈ S.drop rc := by
    rcases List.mem_append.mp hmem2 with hm | hm
    · exact absurd (List.mem_map_of_mem Prod.fst hm) hout
    · exact hm
  have hsorted2 : (S.take rc ++ S.drop rc).Pairwise
      (fun a b => a.2.ts_ms ≤ b.2.ts_ms) := by
    rw [List.take_append_drop]; exact hsorted
  exact (List.pairwise_append.mp hsorted2).2.2 kv htake kv2 hdrop

theorem cacheEvictOldest_oldest (c : TopologyCache) (hnodup : (c.map Prod.fst).Nodup) :
    ∀ kv ∈ c, kv ∉ cacheEvictOldest c →
      ∀ kv2 ∈ cacheEvictOldest c, kv.2.ts_ms ≤ kv2.2.ts_ms := by
  intro kv hkv hnot kv2 hkv2
  unfold cacheEvictOldest at hnot hkv2
  by_cases hlen : TOPOLOGY_HOST_CACHE_MAX_ENTRIES < c.length
  · rw [if_pos hlen] at hnot hkv2
    simp only [] at hnot hkv2
    have hperm : (c.mergeSort (fun a b => a.2.ts_ms ≤ b.2.ts_ms)).Perm c :=
      List.mergeSort_perm c _
    have hkeys : ((c.mergeSort (fun a b => a.2.ts_ms ≤ b.2.ts_ms)).map Prod.fst).Nodup :=
      ((hperm.map Prod.fst).nodup_iff).mpr hnodup
    have hin_rk : kv.1 ∈ ((c.mergeSort (fun a b => a.2.ts_ms ≤ b.2.ts_ms)).take
        (c.length - TOPOLOGY_HOST_CACHE_MAX_ENTRIES)).map Prod.fst := by
      by_contra hcontra
      exact hnot (List.mem_filter.mpr ⟨hkv, by simpa using hcontra⟩)
    have hout_rk : kv2.1 ∉ ((c.mergeSort (fun a b => a.2.ts_ms ≤ b.2.ts_ms)).take
        (c.length - TOPOLOGY_HOST_CACHE_MAX_ENTRIES)).map Prod.fst := by
      have := (List.mem_filter.mp hkv2).2
      simpa using this
    have hkv2_mem : kv2 ∈ c := (List.mem_filter.mp hkv2).1
    have htrans : ∀ (a b c2 : String × TopologyHostCacheEntry),
        (fun x y => decide (x.2.ts_ms ≤ y.2.ts_ms)) a b →
        (fun x y => decide (x.2.ts_ms ≤ y.2.ts_ms)) b c2 →
        (fun x y => decide (x.2.ts_ms ≤ y.2.ts_ms)) a c2 := by
      intro a b c2 hab hbc
      simp only [decide_eq_true_eq] at *
      omega
    have htotal : ∀ (a b : String × TopologyHostCacheEntry),
        ((fun x y => decide (x.2.ts_ms ≤ y.2.ts_ms)) a b ||
         (fun x y => decide (x.2.ts_ms ≤ y.2.ts_ms)) b a) = true := by
      intro a b
      by_cases h : a.2.ts_ms ≤ b.2.ts_ms
      · simp [h]
      · simp only [decide_eq_true_eq, Bool.or_eq_true]
        right
        omega
    have hsorted : (c.mergeSort (fun a b => a.2.ts_ms ≤ b.2.ts_ms)).Pairwise
        (fun a b => a.2.ts_ms ≤ b.2.ts_ms) := by
      have hs := List.sorted_mergeSort htrans htotal c
      refine hs.imp ?_
      intro a b hab
      simpa using hab
    exact take_oldest_le (c.mergeSort (fun a b => a.2.ts_ms ≤ b.2.ts_ms))
      (c.length - TOPOLOGY_HOST_CACHE_MAX_ENTRIES) hsorted hkeys kv kv2
      (hperm.mem_iff.mpr hkv) (hperm.mem_iff.mpr hkv2_mem) hin_rk hout_rk
  · rw [if_neg hlen] at hnot
    exact absurd hkv hnot

/-- C5.  The host-resolution cache invariant: a read never serves an entry
older than the 5-minute TTL (a stale entry is treated as absent even if not
yet deleted); and after a write batch the cache holds no TTL-expired entry,
holds at most 6000 entries, and any entry dropped by the capacity pass has a
write timestamp no newer than every entry kept.  The key-uniqueness
hypothesis is the `HashMap` invariant of the modelled map. -/
theorem cache_ttl_capacity_invariant (cache : TopologyCache) (now_ms write_ts : Int)
    (updates : List (String × HostnameChainResult))
    (hnodup : (cache.map Prod.fst).Nodup) :
    (∀ key v, cacheReadHit cache now_ms key = some v →
      ∃ e, List.lookup key cache = some e ∧
        now_ms - e.ts_ms ≤ TOPOLOGY_HOST_CACHE_TTL_MS ∧ v = e.value) ∧
    (∀ kv ∈ cacheWritePass cache write_ts updates,
      write_ts - kv.2.ts_ms ≤ TOPOLOGY_HOST_CACHE_TTL_MS) ∧
    (cacheWritePass cache write_ts updates).length ≤ TOPOLOGY_HOST_CACHE_MAX_ENTRIES ∧
    (∀ kv ∈ cacheSweep (cacheInsertAll cache write_ts updates) write_ts,
      kv ∉ cacheWritePass cache write_ts updates →
      ∀ kv2 ∈ cacheWritePass cache write_ts updates, kv.2.ts_ms ≤ kv2.2.ts_ms) := by
  refine ⟨fun key v h => cacheReadHit_spec cache now_ms key v h, ?_, ?_, ?_⟩
  · intro kv hkv
    exact cacheSweep_fresh _ write_ts kv (cacheEvictOldest_subset _ kv hkv)
  · exact cacheEvictOldest_length _
  · intro kv hkv hnot kv2 hkv2
    exact cacheEvictOldest_oldest _
      (cacheSweep_keys_nodup _ write_ts
        (cacheInsertAll_keys_nodup write_ts updates cache hnodup))
      kv hkv hnot kv2 hkv2

/-- Concrete one-entry cache for the C5 witness. -/
def witnessCache : TopologyCache := [("k", ⟨0, ⟨"a", ["a"], "a", [], [], [], none⟩⟩)]

/-- Concrete update batch for the C5 witness. -/
def witnessUpdates : List (String × HostnameChainResult) :=
  [("h", ⟨"h", ["h"], "h", [], [], [], none⟩)]

/-- C5 (witness). -/
theorem cache_ttl_capacity_invariant_witness :
    (∀ key v, cacheReadHit witnessCache 0 key = some v →
      ∃ e, List.lookup key witnessCache = some e ∧
        (0 : Int) - e.ts_ms ≤ TOPOLOGY_HOST_CACHE_TTL_MS ∧ v = e.value) ∧
    (∀ kv ∈ cacheWritePass witnessCache 0 witnessUpdates,
      (0 : Int) - kv.2.ts_ms ≤ TOPOLOGY_HOST_CACHE_TTL_MS) ∧
    (cacheWritePass witnessCache 0 witnessUpdates).length ≤
      TOPOLOGY_HOST_CACHE_MAX_ENTRIES ∧
    (∀ kv ∈ cacheSweep (cacheInsertAll witnessCache 0 witnessUpdates) 0,
      kv ∉ cacheWritePass witnessCache 0 witnessUpdates →
      ∀ kv2 ∈ cacheWritePass witnessCache 0 witnessUpdates,
        kv.2.ts_ms ≤ kv2.2.ts_ms) :=
  cache_ttl_capacity_invariant witnessCache 0 0 witnessUpdates (by decide)
